import Mathlib

/-!
Verification of the gpt-researcher research-orchestration engine.

This file shallowly embeds the parts of the repository that the checked
claims are about:

* `gpt_researcher/mcp/research.py` — `MCPResearchSkill._process_tool_result`
* `gpt_researcher/mcp/tool_selector.py` — `MCPToolSelector._fallback_tool_selection`
* `gpt_researcher/skills/researcher.py` — `ResearchConductor._combine_mcp_and_web_context`,
  `_get_context_by_web_search`, `_process_sub_query`, `_search_relevant_source_urls`
* `gpt_researcher/actions/query_processing.py` — `generate_sub_queries`, `plan_research_outline`
* `gpt_researcher/actions/agent_creator.py` — `choose_agent`, `handle_json_error`
* `gpt_researcher/agent.py` — `GPTResearcher.add_costs`
* `gpt_researcher/retrievers/mcp/retriever.py` — `MCPRetriever.search` / `search_async`

Python values are modelled by the inductive `PyVal`; Python dictionaries by
association lists with unique keys; raising an exception by `Except`;
external collaborators (LLM calls, json_repair, MCP transports) by oracle
parameters.  All definitions are executable so theorems can be checked on
concrete inputs with `decide` / `rfl`.
-/

namespace GptResearcher

/-- Model of a Python value as it flows through the MCP result pipeline. -/
inductive PyVal where
  | str (s : String)
  | int (n : Int)
  | bool (b : Bool)
  | none
  | list (xs : List PyVal)
  | dict (entries : List (String × PyVal))

/-- Model of Python `sep.join(parts)`. -/
def pyJoin (sep : String) : List String → String
  | [] => ""
  | [x] => x
  | x :: xs => x ++ sep ++ pyJoin sep xs

/-- Model of Python `s.strip()` (whitespace stripped from both ends). -/
def pyStrip (s : String) : String :=
  (((s.toList.dropWhile Char.isWhitespace).reverse.dropWhile Char.isWhitespace).reverse).asString

/-- Single-quote character, used by the Python `repr` of strings. -/
def sq : String := (Char.ofNat 39).toString

/-- Lookup in a modelled Python dict (`d[k]` / `d.get(k)`), first match. -/
def pyGet (entries : List (String × PyVal)) (k : String) : Option PyVal :=
  (entries.find? (fun e => e.1 == k)).map (fun e => e.2)

/-- Model of Python `d.get(k, default)`. -/
def pyGetD (entries : List (String × PyVal)) (k : String) (dflt : PyVal) : PyVal :=
  (pyGet entries k).getD dflt

/-- Model of Python `k in d`. -/
def pyHasKey (entries : List (String × PyVal)) (k : String) : Bool :=
  (pyGet entries k).isSome

mutual

/-- Model of Python `repr` on the values of `PyVal` (used inside containers). -/
def pyRepr : PyVal → String
  | .str s => sq ++ s ++ sq
  | .int n => toString n
  | .bool b => if b then "True" else "False"
  | .none => "None"
  | .list xs => "[" ++ pyJoin ", " (pyReprList xs) ++ "]"
  | .dict es => "\x7b" ++ pyJoin ", " (pyReprEntries es) ++ "\x7d"

/-- Helper for `pyRepr`: renders each element of a list. -/
def pyReprList : List PyVal → List String
  | [] => []
  | x :: xs => pyRepr x :: pyReprList xs

/-- Helper for `pyRepr`: renders each key/value pair of a dict. -/
def pyReprEntries : List (String × PyVal) → List String
  | [] => []
  | (k, v) :: es => (sq ++ k ++ sq ++ ": " ++ pyRepr v) :: pyReprEntries es

end

/-- Model of Python `str(v)` (top-level strings are not quoted). -/
def pyStr : PyVal → String
  | .str s => s
  | v => pyRepr v

/-!
`MCPResearchSkill._process_tool_result` (gpt_researcher/mcp/research.py,
lines 158-271).  The surrounding `try/except` of the source cannot fire in
this total embedding (no modelled operation raises), so the fallback arm is
not represented.
-/

/-- Normalized entries produced when `structured_content` is a dict.
Source: research.py lines 176-193. -/
def processStructured (toolName : String) (structured : PyVal) : List PyVal :=
  match structured with
  | .dict sEntries =>
    match pyGetD sEntries "results" PyVal.none with
    | .list xs =>
        xs.enum.filterMap (fun p =>
          match p.2 with
          | .dict iEntries => some (PyVal.dict [
              ("title", pyGetD iEntries "title"
                (.str ("来自 " ++ toolName ++ " 的结果 #" ++ toString (p.1 + 1)))),
              ("href", pyGetD iEntries "href"
                (pyGetD iEntries "url" (.str ("mcp://" ++ toolName ++ "/" ++ toString p.1)))),
              ("body", pyGetD iEntries "body"
                (pyGetD iEntries "content" (.str (pyStr p.2))))])
          | _ => Option.none)
    | _ => [PyVal.dict [
        ("title", pyGetD sEntries "title" (.str ("来自 " ++ toolName ++ " 的结果"))),
        ("href", pyGetD sEntries "href"
          (pyGetD sEntries "url" (.str ("mcp://" ++ toolName)))),
        ("body", pyGetD sEntries "body"
          (pyGetD sEntries "content" (.str (pyStr structured))))]]
  | _ => []

/-- Folding of the `content` field into a single body text.
Source: research.py lines 195-214. -/
def foldContentField (wholeResult : PyVal) (contentField : PyVal) : String :=
  match contentField with
  | .list parts =>
    let texts := parts.map (fun part =>
      match part with
      | .dict pEntries =>
        match pyGetD pEntries "type" PyVal.none, pyGet pEntries "text" with
        | .str "text", some (.str t) => t
        | _, some tv => pyStr tv
        | _, Option.none => pyStr part
      | _ => pyStr part)
    pyJoin "\n\n" (texts.filter (fun t => t ≠ ""))
  | .str s => s
  | _ => pyStr wholeResult

/-- Model of `MCPResearchSkill._process_tool_result` (research.py 158-271). -/
def processToolResult (toolName : String) (result : PyVal) : List PyVal :=
  match result with
  | .dict entries =>
    if pyHasKey entries "structured_content" || pyHasKey entries "content" then
      -- MCP wrapper branch (source lines 173-220), ends in an early return
      let fromStructured := processStructured toolName (pyGetD entries "structured_content" PyVal.none)
      if fromStructured.isEmpty then
        let bodyText := foldContentField result (pyGetD entries "content" PyVal.none)
        [PyVal.dict [
          ("title", .str ("来自 " ++ toolName ++ " 的结果")),
          ("href", .str ("mcp://" ++ toolName)),
          ("body", .str bodyText)]]
      else fromStructured
    else
      -- plain dict branch (source lines 243-251)
      [PyVal.dict [
        ("title", pyGetD entries "title" (.str ("来自 " ++ toolName ++ " 的结果"))),
        ("href", pyGetD entries "href"
          (pyGetD entries "url" (.str ("mcp://" ++ toolName)))),
        ("body", pyGetD entries "body"
          (pyGetD entries "content" (.str (pyStr result))))]]
  | .list items =>
      -- list branch (source lines 222-242)
      items.enum.map (fun p =>
        match p.2 with
        | .dict iEntries =>
          if pyHasKey iEntries "title" && (pyHasKey iEntries "content" || pyHasKey iEntries "body") then
            PyVal.dict [
              ("title", pyGetD iEntries "title" (.str "")),
              ("href", pyGetD iEntries "href"
                (pyGetD iEntries "url" (.str ("mcp://" ++ toolName ++ "/" ++ toString p.1)))),
              ("body", pyGetD iEntries "body"
                (pyGetD iEntries "content" (.str (pyStr p.2))))]
          else
            PyVal.dict [
              ("title", .str ("来自 " ++ toolName ++ " 的结果")),
              ("href", .str ("mcp://" ++ toolName ++ "/" ++ toString p.1)),
              ("body", .str (pyStr p.2))]
        | _ =>
            PyVal.dict [
              ("title", .str ("来自 " ++ toolName ++ " 的结果")),
              ("href", .str ("mcp://" ++ toolName ++ "/" ++ toString p.1)),
              ("body", .str (pyStr p.2))])
  | _ => [PyVal.dict [
      ("title", .str ("来自 " ++ toolName ++ " 的结果")),
      ("href", .str ("mcp://" ++ toolName)),
      ("body", .str (pyStr result))]]

/-- C8: the MCP result normalizer is idempotent on its own outputs.  A
mapping with exactly the keys `title`, `href`, `body` (in the order the
normalizer itself emits), each bound to a string, is re-emitted as a
singleton list holding the identical entry: it does not carry
`structured_content` or `content`, so it takes the plain-dict branch, and
every `get` finds the existing string value. -/
theorem c8_normalizer_idempotent_on_outputs (toolName t h b : String) :
    processToolResult toolName
      (PyVal.dict [("title", PyVal.str t), ("href", PyVal.str h), ("body", PyVal.str b)])
    = [PyVal.dict [("title", PyVal.str t), ("href", PyVal.str h), ("body", PyVal.str b)]] := rfl

/-! String helper lemmas used by the combination theorems. -/

theorem append_ne_empty_left (s t : String) (h : s ≠ "") : s ++ t ≠ "" := by
  intro he
  apply h
  have hd := congrArg String.data he
  rw [String.data_append] at hd
  rcases List.append_eq_nil.mp hd with ⟨h1, _⟩
  exact String.ext h1

theorem append_ne_empty_right (s t : String) (h : t ≠ "") : s ++ t ≠ "" := by
  intro he
  apply h
  have hd := congrArg String.data he
  rw [String.data_append] at hd
  rcases List.append_eq_nil.mp hd with ⟨_, h2⟩
  exact String.ext h2

theorem pyJoin_cons_ne_empty (sep x : String) (xs : List String) (hx : x ≠ "") :
    pyJoin sep (x :: xs) ≠ "" := by
  cases xs with
  | nil => simpa [pyJoin] using hx
  | cons y ys =>
    simp only [pyJoin]
    exact append_ne_empty_left _ _ (append_ne_empty_left _ _ hx)

/-!
Combination of MCP and web context for one sub-query:
`ResearchConductor._combine_mcp_and_web_context`
(gpt_researcher/skills/researcher.py, lines 631-682).

MCP context entries are the dicts produced by
`_execute_mcp_research_for_queries` (keys `content`, `url`, `title`, all
strings when present); a missing key is modelled by `Option.none` so the
`dict.get` defaults of the source are exercised.
-/

/-- Context entry as read by `_combine_mcp_and_web_context`. -/
structure McpItem where
  content : Option String
  url : Option String
  title : Option String
deriving DecidableEq

/-- Formatting of one enumerated MCP entry (source lines 654-667): entries
whose content is empty or whitespace-only are dropped; the citation uses
the url only when it is non-empty and not the sentinel
`mcp://llm_analysis`. -/
def formatMcpItem (p : Nat × McpItem) : Option String :=
  let content := p.2.content.getD ""
  let url := p.2.url.getD ""
  let title := p.2.title.getD ("MCP 结果 " ++ toString (p.1 + 1))
  if content ≠ "" ∧ pyStrip content ≠ "" then
    let citation :=
      if url ≠ "" ∧ url ≠ "mcp://llm_analysis" then
        "\n\n*来源: " ++ title ++ " (" ++ url ++ ")*"
      else
        "\n\n*来源: " ++ title ++ "*"
    some (pyStrip content ++ citation)
  else
    Option.none

/-- The `mcp_formatted` list of the source (lines 652-667). -/
def mcpFormattedList (mcpContext : List McpItem) : List String :=
  mcpContext.enum.filterMap formatMcpItem

/-- Contribution of the web context to `combined_parts` (source lines
646-648): the stripped web context when truthy and not whitespace-only. -/
def webContextParts (webContext : String) : List String :=
  if webContext ≠ "" ∧ pyStrip webContext ≠ "" then [pyStrip webContext] else []

/-- Contribution of the MCP context to `combined_parts` (source lines
651-673): the horizontal-rule-joined MCP section when any entry was
formatted. -/
def mcpContextParts (mcpContext : List McpItem) : List String :=
  if mcpContext ≠ [] then
    (if mcpFormattedList mcpContext ≠ [] then
      [pyJoin "\n\n---\n\n" (mcpFormattedList mcpContext)]
    else [])
  else []

/-- Model of `ResearchConductor._combine_mcp_and_web_context`
(researcher.py 631-682): join the collected parts with a blank line, or
return the empty string when there are none. -/
def combineMcpAndWebContext (mcpContext : List McpItem) (webContext : String) : String :=
  if webContextParts webContext ++ mcpContextParts mcpContext ≠ [] then
    pyJoin "\n\n" (webContextParts webContext ++ mcpContextParts mcpContext)
  else ""

/-!
Joining of per-sub-query contexts into the task context:
`_get_context_by_web_search`, researcher.py lines 333-339.  The source
returns either the joined string or the empty list; `Option.none` models
the returned empty list.
-/

/-- Model of researcher.py lines 333-339: drop falsy contexts, then join
with a single space; with nothing left, the empty list is returned. -/
def joinSubQueryContexts (contexts : List String) : Option String :=
  let nonEmpty := contexts.filter (fun c => c ≠ "")
  if nonEmpty ≠ [] then some (pyJoin " " nonEmpty) else Option.none

/-- Rendering of the claimed (spec-worded) join, for comparison: identical
except that the separator is a blank line. -/
def joinSubQueryContextsSpec (contexts : List String) : Option String :=
  let nonEmpty := contexts.filter (fun c => c ≠ "")
  if nonEmpty ≠ [] then some (pyJoin "\n\n" nonEmpty) else Option.none

/-- Stripping the empty string yields the empty string. -/
theorem pyStrip_empty : pyStrip "" = "" := rfl

/-- A string with non-empty strip is non-empty. -/
theorem ne_empty_of_pyStrip_ne_empty {s : String} (h : pyStrip s ≠ "") : s ≠ "" := by
  intro he
  exact h (he ▸ pyStrip_empty)

/-- An enumerated MCP entry is dropped by the formatter exactly when its
content strips to the empty string. -/
theorem formatMcpItem_eq_none_iff (p : Nat × McpItem) :
    formatMcpItem p = Option.none ↔ pyStrip (p.2.content.getD "") = "" := by
  unfold formatMcpItem
  by_cases h : pyStrip (p.2.content.getD "") = ""
  · have hcond : ¬(p.2.content.getD "" ≠ "" ∧ pyStrip (p.2.content.getD "") ≠ "") := by
      intro hc
      exact hc.2 h
    rw [if_neg hcond]
    simp [h]
  · have hc : p.2.content.getD "" ≠ "" := ne_empty_of_pyStrip_ne_empty h
    rw [if_pos ⟨hc, h⟩]
    simp [h]

/-- Every formatted MCP entry is a non-empty string (content followed by a
non-empty citation). -/
theorem formatMcpItem_ne_empty (p : Nat × McpItem) (s : String)
    (h : formatMcpItem p = some s) : s ≠ "" := by
  unfold formatMcpItem at h
  by_cases hcond : p.2.content.getD "" ≠ "" ∧ pyStrip (p.2.content.getD "") ≠ ""
  · rw [if_pos hcond, Option.some.injEq] at h
    subst h
    apply append_ne_empty_right
    by_cases hurl : p.2.url.getD "" ≠ "" ∧ p.2.url.getD "" ≠ "mcp://llm_analysis"
    · rw [if_pos hurl]
      exact append_ne_empty_right _ _ (by decide)
    · rw [if_neg hurl]
      exact append_ne_empty_right _ _ (by decide)
  · rw [if_neg hcond] at h
    exact absurd h (by simp)

/-- The formatted MCP list is empty exactly when every entry has
whitespace-only content. -/
theorem mcpFormattedList_eq_nil_iff (mcpContext : List McpItem) :
    mcpFormattedList mcpContext = [] ↔
      ∀ item ∈ mcpContext, pyStrip (item.content.getD "") = "" := by
  unfold mcpFormattedList
  rw [List.filterMap_eq_nil_iff]
  constructor
  · intro h item hmem
    have hsnd : item ∈ (mcpContext.enum.map Prod.snd) := by
      rw [List.enum]
      rw [List.enumFrom_map_snd]
      exact hmem
    rcases List.mem_map.mp hsnd with ⟨p, hp, hpe⟩
    have := (formatMcpItem_eq_none_iff p).mp (h p hp)
    rw [hpe] at this
    exact this
  · intro h p hp
    apply (formatMcpItem_eq_none_iff p).mpr
    apply h
    have : p.2 ∈ (mcpContext.enum.map Prod.snd) := List.mem_map_of_mem Prod.snd hp
    rw [List.enum, List.enumFrom_map_snd] at this
    exact this

/-- Every member of the formatted MCP list is non-empty. -/
theorem mem_mcpFormattedList_ne_empty (mcpContext : List McpItem) :
    ∀ s ∈ mcpFormattedList mcpContext, s ≠ "" := by
  intro s hs
  rcases List.mem_filterMap.mp hs with ⟨p, _, hp⟩
  exact formatMcpItem_ne_empty p s hp

/-- Joining a list of non-empty strings over a non-empty list is non-empty. -/
theorem pyJoin_ne_empty (sep : String) (l : List String)
    (hne : l ≠ []) (hall : ∀ x ∈ l, x ≠ "") : pyJoin sep l ≠ "" := by
  cases l with
  | nil => exact absurd rfl hne
  | cons x xs => exact pyJoin_cons_ne_empty sep x xs (hall x (List.mem_cons_self x xs))

/-- The web part list is empty exactly when the web context strips to
nothing. -/
theorem webContextParts_eq_nil_iff (web : String) :
    webContextParts web = [] ↔ pyStrip web = "" := by
  unfold webContextParts
  by_cases hw : pyStrip web = ""
  · rw [if_neg (fun hc => hc.2 hw)]
    simp [hw]
  · rw [if_pos ⟨ne_empty_of_pyStrip_ne_empty hw, hw⟩]
    simp [hw]

/-- The MCP part list is either empty or a singleton holding a non-empty
joined section; it is empty exactly when no entry was formatted. -/
theorem mcpContextParts_cases (mcpContext : List McpItem) :
    (mcpContextParts mcpContext = [] ∧ mcpFormattedList mcpContext = []) ∨
    (∃ j, mcpContextParts mcpContext = [j] ∧ j ≠ "" ∧ mcpFormattedList mcpContext ≠ []) := by
  unfold mcpContextParts
  by_cases hmc : mcpContext = []
  · left
    subst hmc
    exact ⟨by simp, rfl⟩
  · rw [if_pos hmc]
    by_cases hm : mcpFormattedList mcpContext = []
    · left
      rw [if_neg (fun hn => hn hm)]
      exact ⟨rfl, hm⟩
    · right
      refine ⟨pyJoin "\n\n---\n\n" (mcpFormattedList mcpContext), by rw [if_pos hm], ?_, hm⟩
      exact pyJoin_ne_empty _ _ hm (mem_mcpFormattedList_ne_empty mcpContext)

/-- The combined context is empty exactly when the stripped web context is
empty and every MCP entry has whitespace-only content. -/
theorem combine_eq_empty_iff (mcpContext : List McpItem) (web : String) :
    combineMcpAndWebContext mcpContext web = "" ↔
      (pyStrip web = "" ∧ ∀ item ∈ mcpContext, pyStrip (item.content.getD "") = "") := by
  unfold combineMcpAndWebContext
  by_cases hw : pyStrip web = ""
  · rw [(webContextParts_eq_nil_iff web).mpr hw, List.nil_append]
    rcases mcpContextParts_cases mcpContext with ⟨hp, hf⟩ | ⟨j, hp, hj, hf⟩
    · rw [hp]
      rw [if_neg (fun hn => hn rfl)]
      exact ⟨fun _ => ⟨hw, (mcpFormattedList_eq_nil_iff mcpContext).mp hf⟩, fun _ => rfl⟩
    · rw [hp]
      rw [if_pos (by simp)]
      simp only [pyJoin]
      constructor
      · intro hje
        exact absurd hje hj
      · intro hr
        exact absurd ((mcpFormattedList_eq_nil_iff mcpContext).mpr hr.2) hf
  · have hwp : webContextParts web = [pyStrip web] := by
      unfold webContextParts
      rw [if_pos ⟨ne_empty_of_pyStrip_ne_empty hw, hw⟩]
    rw [hwp]
    rw [if_pos (by simp)]
    constructor
    · intro hje
      exact absurd hje (pyJoin_cons_ne_empty _ _ _ hw)
    · intro hr
      exact absurd hr.1 hw

/-- C3 counterexample: with an empty MCP context and the whitespace-only
web context, the combined output is the empty string even though not both
inputs are empty, refuting the claimed equivalence between empty output
and both inputs being empty (and the claimed non-emptiness otherwise). -/
theorem c3_counterexample :
    combineMcpAndWebContext [] " " = "" ∧ (" " : String) ≠ "" := by
  constructor
  · rfl
  · decide

/-- Evaluation of the formatter on a fully-populated entry with
non-whitespace content. -/
theorem formatMcpItem_some (i : Nat) (c u t : String) (hc : pyStrip c ≠ "") :
    formatMcpItem (i, ⟨some c, some u, some t⟩) =
      some (pyStrip c ++ (if u ≠ "" ∧ u ≠ "mcp://llm_analysis"
        then "\n\n*来源: " ++ t ++ " (" ++ u ++ ")*"
        else "\n\n*来源: " ++ t ++ "*")) := by
  unfold formatMcpItem
  simp only [Option.getD_some]
  rw [if_pos ⟨ne_empty_of_pyStrip_ne_empty hc, hc⟩]

/-- C3 amended: the combiner emits the stripped web context first when it
is not whitespace-only; each kept MCP entry is its stripped content
followed by the citation line `*来源: title (url)*` when a real url exists
(non-empty and not the `mcp://llm_analysis` sentinel) and `*来源: title*`
otherwise; entries with whitespace-only content are dropped; MCP entries
are separated by a horizontal-rule delimiter and the web and MCP blocks by
a blank line; and the output is empty exactly when the web context is
whitespace-only and every MCP entry has whitespace-only content. -/
theorem c3_amended_combination_format :
    (∀ (mcp : List McpItem) (web : String),
      combineMcpAndWebContext mcp web = "" ↔
        (pyStrip web = "" ∧ ∀ item ∈ mcp, pyStrip (item.content.getD "") = "")) ∧
    (∀ (mcp : List McpItem) (web : String), pyStrip web ≠ "" →
      ∃ rest, combineMcpAndWebContext mcp web = pyStrip web ++ rest) ∧
    (∀ c u t, pyStrip c ≠ "" → u ≠ "" → u ≠ "mcp://llm_analysis" →
      combineMcpAndWebContext [⟨some c, some u, some t⟩] "" =
        pyStrip c ++ "\n\n*来源: " ++ t ++ " (" ++ u ++ ")*") ∧
    (∀ c t, pyStrip c ≠ "" →
      combineMcpAndWebContext [⟨some c, some "mcp://llm_analysis", some t⟩] "" =
        pyStrip c ++ "\n\n*来源: " ++ t ++ "*") ∧
    (∀ c u t web, pyStrip web ≠ "" → pyStrip c ≠ "" → u ≠ "" → u ≠ "mcp://llm_analysis" →
      combineMcpAndWebContext [⟨some c, some u, some t⟩] web =
        pyStrip web ++ "\n\n" ++ pyStrip c ++ "\n\n*来源: " ++ t ++ " (" ++ u ++ ")*") ∧
    (∀ c₁ u₁ t₁ c₂ u₂ t₂, pyStrip c₁ ≠ "" → pyStrip c₂ ≠ "" →
      u₁ ≠ "" → u₁ ≠ "mcp://llm_analysis" → u₂ ≠ "" → u₂ ≠ "mcp://llm_analysis" →
      combineMcpAndWebContext [⟨some c₁, some u₁, some t₁⟩, ⟨some c₂, some u₂, some t₂⟩] "" =
        pyStrip c₁ ++ "\n\n*来源: " ++ t₁ ++ " (" ++ u₁ ++ ")*" ++ "\n\n---\n\n" ++
        pyStrip c₂ ++ "\n\n*来源: " ++ t₂ ++ " (" ++ u₂ ++ ")*") := by
  refine ⟨combine_eq_empty_iff, ?_, ?_, ?_, ?_, ?_⟩
  · intro mcp web hw
    have hwp : webContextParts web = [pyStrip web] := by
      unfold webContextParts
      rw [if_pos ⟨ne_empty_of_pyStrip_ne_empty hw, hw⟩]
    unfold combineMcpAndWebContext
    rw [hwp]
    rcases mcpContextParts_cases mcp with ⟨hp, _⟩ | ⟨j, hp, _, _⟩
    · rw [hp, if_pos (by simp)]
      exact ⟨"", by simp [pyJoin]⟩
    · rw [hp, if_pos (by simp)]
      exact ⟨"\n\n" ++ j, by simp [pyJoin, String.append_assoc]⟩
  · intro c u t hc hu1 hu2
    have hfmt := formatMcpItem_some 0 c u t hc
    rw [if_pos ⟨hu1, hu2⟩] at hfmt
    unfold combineMcpAndWebContext webContextParts mcpContextParts mcpFormattedList
    simp [List.enum_cons, List.enumFrom, hfmt, pyJoin, String.append_assoc]
  · intro c t hc
    have hfmt := formatMcpItem_some 0 c "mcp://llm_analysis" t hc
    rw [if_neg (fun h => h.2 rfl)] at hfmt
    unfold combineMcpAndWebContext webContextParts mcpContextParts mcpFormattedList
    simp [List.enum_cons, List.enumFrom, hfmt, pyJoin, String.append_assoc]
  · intro c u t web hw hc hu1 hu2
    have hfmt := formatMcpItem_some 0 c u t hc
    rw [if_pos ⟨hu1, hu2⟩] at hfmt
    have hwp : webContextParts web = [pyStrip web] := by
      unfold webContextParts
      rw [if_pos ⟨ne_empty_of_pyStrip_ne_empty hw, hw⟩]
    unfold combineMcpAndWebContext mcpContextParts mcpFormattedList
    rw [hwp]
    simp [List.enum_cons, List.enumFrom, hfmt, pyJoin, String.append_assoc]
  · intro c₁ u₁ t₁ c₂ u₂ t₂ hc₁ hc₂ hu₁ hu₁s hu₂ hu₂s
    have hfmt₁ := formatMcpItem_some 0 c₁ u₁ t₁ hc₁
    rw [if_pos ⟨hu₁, hu₁s⟩] at hfmt₁
    have hfmt₂ := formatMcpItem_some 1 c₂ u₂ t₂ hc₂
    rw [if_pos ⟨hu₂, hu₂s⟩] at hfmt₂
    unfold combineMcpAndWebContext webContextParts mcpContextParts mcpFormattedList
    simp [List.enum_cons, List.enumFrom, hfmt₁, hfmt₂, pyJoin, String.append_assoc]

/-- C3 amended witness: the formatting case evaluated at a concrete entry. -/
theorem c3_amended_combination_format_witness :
    combineMcpAndWebContext [⟨some " fact ", some "http://e.x", some "T"⟩] "" =
      pyStrip " fact " ++ "\n\n*来源: " ++ "T" ++ " (" ++ "http://e.x" ++ ")*" :=
  c3_amended_combination_format.2.2.1 " fact " "http://e.x" "T"
    (by decide) (by decide) (by decide)

/-- C4 counterexample: two non-empty sub-query contexts are joined with a
single space, not with the blank-line separator the claim states. -/
theorem c4_counterexample :
    joinSubQueryContexts ["a", "b"] = some "a b" ∧
    joinSubQueryContextsSpec ["a", "b"] = some ("a" ++ "\n\n" ++ "b") ∧
    ("a b" : String) ≠ "a" ++ "\n\n" ++ "b" := by
  refine ⟨rfl, rfl, by decide⟩

/-- C4 amended: after fan-out, empty sub-query contexts are dropped and
the remaining non-empty contexts are concatenated with a single space
separator; when every context is empty, the empty list (modelled
`Option.none`) is returned instead of a string. -/
theorem c4_amended_join (contexts : List String) :
    (joinSubQueryContexts contexts = Option.none ↔ ∀ c ∈ contexts, c = "") ∧
    joinSubQueryContexts contexts = joinSubQueryContexts (contexts.filter (fun c => c ≠ "")) ∧
    ((∀ c ∈ contexts, c ≠ "") → contexts ≠ [] →
      joinSubQueryContexts contexts = some (pyJoin " " contexts)) := by
  refine ⟨?_, ?_, ?_⟩
  · unfold joinSubQueryContexts
    by_cases h : contexts.filter (fun c => c ≠ "") = []
    · rw [if_neg (fun hn => hn h)]
      simp only [List.filter_eq_nil_iff] at h
      constructor
      · intro _ c hc
        by_contra hne
        exact h c hc (by simpa using hne)
      · intro _
        rfl
    · rw [if_pos h]
      constructor
      · intro hct
        exact absurd hct (by simp)
      · intro hall
        exact absurd (List.filter_eq_nil_iff.mpr (fun c hc => by simp [hall c hc])) h
  · unfold joinSubQueryContexts
    rw [List.filter_filter]
    simp
  · intro hall hne
    unfold joinSubQueryContexts
    have hf : contexts.filter (fun c => c ≠ "") = contexts :=
      List.filter_eq_self.mpr (fun c hc => by simp [hall c hc])
    rw [hf, if_pos hne]

/-- C4 amended witness: the space join evaluated on two concrete
non-empty contexts. -/
theorem c4_amended_join_witness :
    joinSubQueryContexts ["a", "b"] = some (pyJoin " " ["a", "b"]) :=
  (c4_amended_join ["a", "b"]).2.2 (by decide) (by decide)

/-!
Cost accumulation: `GPTResearcher.add_costs` (gpt_researcher/agent.py,
lines 463-471).  The argument of a call is a Python value; the
`isinstance(cost, (float, int))` check accepts any int or float (Python
bools are ints and are covered by the `int` constructor).  Rationals model
Python floats: only ordering and addition of finite values matter here.
-/

/-- Argument passed to `add_costs`. -/
inductive CostArg where
  | int (n : Int)
  | float (q : ℚ)
  | nonNumeric
deriving DecidableEq

/-- Numeric value of a cost argument, when the isinstance check passes. -/
def costValue : CostArg → Option ℚ
  | .int n => some (n : ℚ)
  | .float q => some q
  | .nonNumeric => Option.none

/-- Model of `GPTResearcher.add_costs` (agent.py 463-471): reject
non-numeric arguments with a ValueError, otherwise add the cost to the
running total. -/
def addCosts (total : ℚ) (cost : CostArg) : Except String ℚ :=
  match costValue cost with
  | some v => .ok (total + v)
  | Option.none => .error "Cost 必须是整数或浮点数"

/-- Running totals observed after each accepted numeric call. -/
def costTotalsFrom (init : ℚ) : List ℚ → List ℚ
  | [] => []
  | c :: cs => (init + c) :: costTotalsFrom (init + c) cs

/-- All observed values of the cost record: the initial total followed by
the totals after each accepted call. -/
def observedTotals (init : ℚ) (cs : List ℚ) : List ℚ :=
  init :: costTotalsFrom init cs

/-- Unfolding of `observedTotals` over a first call. -/
theorem observedTotals_cons (init c : ℚ) (cs : List ℚ) :
    observedTotals init (c :: cs) = init :: observedTotals (init + c) cs := rfl

/-- Every later observed total dominates the initial one when all costs
are non-negative. -/
theorem observedTotals_le (init : ℚ) (cs : List ℚ) (h : ∀ c ∈ cs, 0 ≤ c) :
    ∀ x ∈ observedTotals init cs, init ≤ x := by
  induction cs generalizing init with
  | nil =>
    intro x hx
    simp [observedTotals, costTotalsFrom] at hx
    exact hx ▸ le_refl init
  | cons c cs ih =>
    intro x hx
    rw [observedTotals_cons] at hx
    rcases List.mem_cons.mp hx with hx | hx
    · exact hx ▸ le_refl init
    · have h0 : 0 ≤ c := h c (List.mem_cons_self c cs)
      have := ih (init + c) (fun d hd => h d (List.mem_cons_of_mem c hd)) x hx
      linarith

/-- C5 counterexample: a negative float passes the isinstance check, so a
call is accepted whose observed total strictly decreases (observed 5
before, 4 after). -/
theorem c5_counterexample :
    addCosts 5 (CostArg.float (-1)) = Except.ok 4 ∧ ¬ ((5 : ℚ) ≤ 4) := by
  constructor
  · unfold addCosts costValue
    norm_num
  · norm_num

/-- C5 amended: `add_costs` only validates that the argument is numeric
and adds exactly its value to the running total (negative values are
accepted and decrease it); the observed totals are monotonically
non-decreasing provided every accepted cost is non-negative. -/
theorem c5_amended_cost_monotone :
    (∀ (total : ℚ) (q : ℚ), addCosts total (CostArg.float q) = Except.ok (total + q)) ∧
    (∀ (total : ℚ) (n : Int), addCosts total (CostArg.int n) = Except.ok (total + (n : ℚ))) ∧
    (∀ (total : ℚ), addCosts total CostArg.nonNumeric = Except.error "Cost 必须是整数或浮点数") ∧
    (∀ (init : ℚ) (cs : List ℚ), (∀ c ∈ cs, 0 ≤ c) →
      List.Pairwise (fun c₁ c₂ => c₁ ≤ c₂) (observedTotals init cs)) := by
  refine ⟨fun _ _ => rfl, fun _ _ => rfl, fun _ => rfl, ?_⟩
  intro init cs h
  induction cs generalizing init with
  | nil => simp [observedTotals, costTotalsFrom]
  | cons c cs ih =>
    rw [observedTotals_cons]
    refine List.Pairwise.cons ?_ ?_
    · intro x hx
      have h0 : 0 ≤ c := h c (List.mem_cons_self c cs)
      have := observedTotals_le (init + c) cs (fun d hd => h d (List.mem_cons_of_mem c hd)) x hx
      linarith
    · exact ih (init + c) (fun d hd => h d (List.mem_cons_of_mem c hd))

/-- C5 amended witness: monotone observed totals for one concrete
non-negative cost sequence. -/
theorem c5_amended_cost_monotone_witness :
    List.Pairwise (fun c₁ c₂ => c₁ ≤ c₂) (observedTotals 0 [1, 2]) :=
  c5_amended_cost_monotone.2.2.2 0 [1, 2] (by norm_num)

/-!
Agent persona selection: `choose_agent` and `handle_json_error`
(gpt_researcher/actions/agent_creator.py, lines 10-94).

External parsers are oracles: `jsonLoads` models strict `json.loads`
(error = JSONDecodeError), `jsonRepairLoads` models `json_repair.loads`
(error = any exception), `regexSearch` models
`re.search(r..., response, re.DOTALL)` returning the matched substring.
The LLM response is `Option.none` when `create_chat_completion` itself
raised (the source initializes `response = None` before the call).
Calling `re.search` on `None` raises `TypeError`, modelled as the
uncaught `Except.error`.
-/

/-- Truthiness of a modelled Python value. -/
def pyTruthy : PyVal → Bool
  | .str s => s ≠ ""
  | .int n => n ≠ 0
  | .bool b => b
  | .none => false
  | .list xs => !xs.isEmpty
  | .dict es => !es.isEmpty

/-- Model of Python subscript `v[k]`: KeyError (or TypeError on a
non-dict) propagates. -/
def pyIndex (v : PyVal) (k : String) : Except Unit PyVal :=
  match v with
  | .dict es =>
    match pyGet es k with
    | some x => .ok x
    | Option.none => .error ()
  | _ => .error ()

/-- Model of Python `v.get(k)`: AttributeError on a non-dict propagates,
a missing key yields `None`. -/
def pyGetMethod (v : PyVal) (k : String) : Except Unit (Option PyVal) :=
  match v with
  | .dict es => .ok (pyGet es k)
  | _ => .error ()

/-- Hard-coded default persona of `handle_json_error` (source lines
84-87). -/
def defaultPersona : PyVal × PyVal :=
  (PyVal.str "默认代理",
   PyVal.str "你是一名具备批判性思维的人工智能研究助理。你的唯一目的就是基于给定文本撰写写作精良、广受好评、客观且结构化的报告。")

/-- Result of the `try: json_repair.loads(response) ...` block of
`handle_json_error` (source lines 58-70): any exception inside the block
is caught and `none` falls through to the regex stage. -/
def handleJsonErrorRepairStage (resp : Option String)
    (jsonRepairLoads : String → Except Unit PyVal) : Option (PyVal × PyVal) :=
  match resp with
  | Option.none => Option.none
  | some r =>
    match jsonRepairLoads r with
    | .error _ => Option.none
    | .ok d =>
      match pyGetMethod d "server", pyGetMethod d "agent_role_prompt" with
      | .ok (some sv), .ok (some pv) =>
        if pyTruthy sv && pyTruthy pv then some (sv, pv) else Option.none
      | _, _ => Option.none

/-- Model of `handle_json_error` (agent_creator.py 57-87).  After the
repair stage, `extract_json_with_regex(response)` is applied: on a `None`
response `re.search` raises `TypeError`, which nothing catches; in the
regex branch only `json.JSONDecodeError` is caught, so a `KeyError` from
the subscripts escapes past the default-persona fallback. -/
def handleJsonError (resp : Option String)
    (jsonLoads jsonRepairLoads : String → Except Unit PyVal)
    (regexSearch : String → Option String) : Except Unit (PyVal × PyVal) :=
  match handleJsonErrorRepairStage resp jsonRepairLoads with
  | some sp => .ok sp
  | Option.none =>
    match resp with
    | Option.none => .error ()
    | some r =>
      match regexSearch r with
      | some js =>
        if js ≠ "" then
          match jsonLoads js with
          | .ok d => do
              let sv ← pyIndex d "server"
              let pv ← pyIndex d "agent_role_prompt"
              pure (sv, pv)
          | .error _ => .ok defaultPersona
        else .ok defaultPersona
      | Option.none => .ok defaultPersona

/-- Model of `choose_agent` (agent_creator.py 10-54): strict parse and
subscripts inside the `try`; any exception there (including a raising LLM
call, leaving `response = None`) is handled by `handle_json_error`. -/
def chooseAgent (llmResponse : Option String)
    (jsonLoads jsonRepairLoads : String → Except Unit PyVal)
    (regexSearch : String → Option String) : Except Unit (PyVal × PyVal) :=
  match llmResponse with
  | Option.none => handleJsonError Option.none jsonLoads jsonRepairLoads regexSearch
  | some r =>
    match (do
      let d ← jsonLoads r
      let sv ← pyIndex d "server"
      let pv ← pyIndex d "agent_role_prompt"
      pure (sv, pv) : Except Unit (PyVal × PyVal)) with
    | .ok sp => .ok sp
    | .error _ => handleJsonError (some r) jsonLoads jsonRepairLoads regexSearch

/-- C6: persona selection does fail hard on an absent LLM response.  When
the provider call raises (so `response` is `None`), the repair stage
raises and is caught, but `extract_json_with_regex(None)` calls
`re.search` on `None`, raising an uncaught TypeError — the hard-coded
default persona is never reached, whatever the parser oracles do. -/
theorem c6_choose_agent_raises_on_absent_response
    (jsonLoads jsonRepairLoads : String → Except Unit PyVal)
    (regexSearch : String → Option String) :
    chooseAgent Option.none jsonLoads jsonRepairLoads regexSearch = Except.error () := rfl

/-!
Sub-query planning: `generate_sub_queries` and `plan_research_outline`
(gpt_researcher/actions/query_processing.py, lines 37-169).

The three LLM calls (strategic, strategic retry with
`max_tokens=strategic_token_limit`, smart fallback) are oracles whose
value is `Option.none` when the call raises; `json_repair.loads` is a
total oracle.  A raising smart fallback escapes the function: there is no
surrounding `try`.
-/

/-- Model of `generate_sub_queries` (query_processing.py 37-110): take the
first successful LLM response among strategic, retry and smart fallback,
parse it with `json_repair.loads`; when all three raise, the last
exception propagates. -/
def genSubQueries (strategic retry smart : Option String)
    (jsonRepairLoads : String → PyVal) : Except Unit PyVal :=
  match strategic with
  | some r => .ok (jsonRepairLoads r)
  | Option.none =>
    match retry with
    | some r => .ok (jsonRepairLoads r)
    | Option.none =>
      match smart with
      | some r => .ok (jsonRepairLoads r)
      | Option.none => .error ()

/-- Condition for the MCP-only shortcut of `plan_research_outline`
(query_processing.py 145-153). -/
def mcpOnly (retrieverNames : List String) : Prop :=
  retrieverNames.length = 1 ∧
    (retrieverNames.contains "mcp" ∨ retrieverNames.contains "MCPRetriever")

instance (retrieverNames : List String) : Decidable (mcpOnly retrieverNames) := by
  unfold mcpOnly
  infer_instance

/-- Model of `plan_research_outline` (query_processing.py 112-169): return
`[query]` when MCP is the only retriever, otherwise whatever
`generate_sub_queries` produces. -/
def planResearchOutline (query : String) (retrieverNames : List String)
    (strategic retry smart : Option String)
    (jsonRepairLoads : String → PyVal) : Except Unit PyVal :=
  if retrieverNames ≠ [] ∧
      (retrieverNames.contains "mcp" ∨ retrieverNames.contains "MCPRetriever") then
    if mcpOnly retrieverNames then
      .ok (.list [.str query])
    else
      genSubQueries strategic retry smart jsonRepairLoads
  else
    genSubQueries strategic retry smart jsonRepairLoads

/-- C2 counterexample: with a single non-MCP retriever and all three LLM
calls raising, the planner propagates the exception instead of returning
the singleton `[query]` (or any list at all). -/
theorem c2_counterexample :
    planResearchOutline "q" ["tavily"] Option.none Option.none Option.none
      (fun r => PyVal.str r) = Except.error () ∧
    ¬ ∃ v, planResearchOutline "q" ["tavily"] Option.none Option.none Option.none
      (fun r => PyVal.str r) = Except.ok v := by
  constructor
  · rfl
  · rintro ⟨v, hv⟩
    rw [(rfl : planResearchOutline "q" ["tavily"] Option.none Option.none Option.none
      (fun r => PyVal.str r) = Except.error ())] at hv
    exact Except.noConfusion hv

/-- C2 amended: the planner returns exactly `[query]` when MCP is the sole
configured retriever; otherwise it returns the JSON-repair parse of the
first successful LLM response (strategic, then a retry, then the smart
fallback) — whatever shape that parse has — and when all three calls fail
the exception propagates to the caller instead of any `[query]` fallback. -/
theorem c2_amended_planner :
    (∀ query retrieverNames s r m parse, mcpOnly retrieverNames →
      planResearchOutline query retrieverNames s r m parse =
        Except.ok (PyVal.list [PyVal.str query])) ∧
    (∀ query retrieverNames s r m parse, ¬ mcpOnly retrieverNames →
      planResearchOutline query retrieverNames s r m parse =
        genSubQueries s r m parse) ∧
    (∀ resp r m parse, genSubQueries (some resp) r m parse = Except.ok (parse resp)) ∧
    (∀ resp m parse, genSubQueries Option.none (some resp) m parse = Except.ok (parse resp)) ∧
    (∀ resp parse, genSubQueries Option.none Option.none (some resp) parse =
      Except.ok (parse resp)) ∧
    (∀ parse, genSubQueries Option.none Option.none Option.none parse = Except.error ()) := by
  refine ⟨?_, ?_, fun _ _ _ _ => rfl, fun _ _ _ => rfl, fun _ _ => rfl, fun _ => rfl⟩
  · intro query retrieverNames s r m parse h
    have hne : retrieverNames ≠ [] := by
      intro he
      rw [he] at h
      exact absurd h.1 (by decide)
    unfold planResearchOutline
    rw [if_pos ⟨hne, h.2⟩, if_pos h]
  · intro query retrieverNames s r m parse h
    unfold planResearchOutline
    by_cases hc : retrieverNames ≠ [] ∧
        (retrieverNames.contains "mcp" ∨ retrieverNames.contains "MCPRetriever")
    · rw [if_pos hc, if_neg h]
    · rw [if_neg hc]

/-- C2 amended witness: the MCP-only shortcut evaluated concretely. -/
theorem c2_amended_planner_witness :
    planResearchOutline "q" ["mcp"] Option.none Option.none Option.none
      (fun r => PyVal.str r) = Except.ok (PyVal.list [PyVal.str "q"]) :=
  c2_amended_planner.1 "q" ["mcp"] Option.none Option.none Option.none
    (fun r => PyVal.str r) (by decide)

/-!
Fallback tool selection: `MCPToolSelector._fallback_tool_selection`
(gpt_researcher/mcp/tool_selector.py, lines 163-204).
-/

/-- Boolean prefix test on character lists. -/
def listPrefixB : List Char → List Char → Bool
  | [], _ => true
  | _ :: _, [] => false
  | a :: as, b :: bs => a == b && listPrefixB as bs

/-- Boolean infix test on character lists. -/
def listInfixB (p : List Char) : List Char → Bool
  | [] => listPrefixB p []
  | c :: rest => listPrefixB p (c :: rest) || listInfixB p rest

/-- Model of Python `needle in haystack` on strings. -/
def strContains (haystack needle : String) : Bool :=
  listInfixB needle.toList haystack.toList

/-- Model of Python `s.lower()` (ASCII lowering). -/
def pyLower (s : String) : String := String.mk (s.data.map Char.toLower)

/-- MCP tool descriptor as used by the fallback selector: a name and an
optional description (`tool.description or ""`). -/
structure Tool where
  name : String
  description : Option String
deriving DecidableEq

/-- Research-oriented verb patterns of the source (tool_selector.py
175-178) — thirteen verbs, `read` included. -/
def researchPatterns : List String :=
  ["search", "get", "read", "fetch", "find", "list", "query",
   "lookup", "retrieve", "browse", "view", "show", "describe"]

/-- The twelve-verb set stated by the spec (no `read`), for comparison. -/
def researchPatternsSpec : List String :=
  ["search", "get", "fetch", "find", "list", "query",
   "lookup", "retrieve", "browse", "view", "show", "describe"]

/-- Relevance score of one tool over a pattern list (tool_selector.py
182-192): 3 points per verb occurring in the lowered name, 1 point per
verb occurring in the lowered description. -/
def scoreToolOver (patterns : List String) (tool : Tool) : Nat :=
  let toolName := pyLower tool.name
  let toolDescription := pyLower (tool.description.getD "")
  patterns.foldl (fun score pattern =>
    score + (if strContains toolName pattern then 3 else 0)
          + (if strContains toolDescription pattern then 1 else 0)) 0

/-- Score against the source's verb set. -/
def scoreTool (tool : Tool) : Nat := scoreToolOver researchPatterns tool

/-- Score against the spec-stated verb set. -/
def scoreToolSpec (tool : Tool) : Nat := scoreToolOver researchPatternsSpec tool

/-- Stable insert for descending scores: an element is placed before the
first strictly smaller score, after equal ones. -/
def insertByScoreDesc {α : Type} (x : α × Nat) : List (α × Nat) → List (α × Nat)
  | [] => [x]
  | y :: ys => if y.2 ≤ x.2 then x :: y :: ys else y :: insertByScoreDesc x ys

/-- Stable sort by descending score, modelling Python
`list.sort(key=lambda x: x[1], reverse=True)`. -/
def sortByScoreDesc {α : Type} : List (α × Nat) → List (α × Nat)
  | [] => []
  | x :: xs => insertByScoreDesc x (sortByScoreDesc xs)

/-- Model of `MCPToolSelector._fallback_tool_selection` (tool_selector.py
163-204): keep positively-scored tools, sort by descending score (stable,
like Python `list.sort(..., reverse=True)`), take the first `maxTools`. -/
def fallbackToolSelection (allTools : List Tool) (maxTools : Nat) : List Tool :=
  ((sortByScoreDesc ((allTools.map (fun t => (t, scoreTool t))).filter
    (fun p => 0 < p.2))).take maxTools).map Prod.fst

/-- Selection as the spec words it, with the twelve-verb set. -/
def fallbackToolSelectionSpec (allTools : List Tool) (maxTools : Nat) : List Tool :=
  ((sortByScoreDesc ((allTools.map (fun t => (t, scoreToolSpec t))).filter
    (fun p => 0 < p.2))).take maxTools).map Prod.fst

/-- Membership through the stable insert. -/
theorem mem_insertByScoreDesc {α : Type} (x y : α × Nat) (l : List (α × Nat)) :
    y ∈ insertByScoreDesc x l ↔ y = x ∨ y ∈ l := by
  induction l with
  | nil => simp [insertByScoreDesc]
  | cons z zs ih =>
    unfold insertByScoreDesc
    by_cases h : z.2 ≤ x.2
    · rw [if_pos h]
      simp
    · rw [if_neg h]
      simp only [List.mem_cons, ih]
      tauto

/-- Membership through the stable sort. -/
theorem mem_sortByScoreDesc {α : Type} (y : α × Nat) (l : List (α × Nat)) :
    y ∈ sortByScoreDesc l ↔ y ∈ l := by
  induction l with
  | nil => simp [sortByScoreDesc]
  | cons z zs ih =>
    unfold sortByScoreDesc
    rw [mem_insertByScoreDesc]
    simp [ih]

/-- Length is preserved by the stable insert. -/
theorem length_insertByScoreDesc {α : Type} (x : α × Nat) (l : List (α × Nat)) :
    (insertByScoreDesc x l).length = l.length + 1 := by
  induction l with
  | nil => rfl
  | cons z zs ih =>
    unfold insertByScoreDesc
    by_cases h : z.2 ≤ x.2
    · rw [if_pos h]
      rfl
    · rw [if_neg h]
      simp [ih]

/-- Length is preserved by the stable sort. -/
theorem length_sortByScoreDesc {α : Type} (l : List (α × Nat)) :
    (sortByScoreDesc l).length = l.length := by
  induction l with
  | nil => rfl
  | cons z zs ih =>
    unfold sortByScoreDesc
    rw [length_insertByScoreDesc, ih]
    rfl

/-- Inserting preserves descending order of scores. -/
theorem pairwise_insertByScoreDesc {α : Type} (x : α × Nat) (l : List (α × Nat))
    (h : List.Pairwise (fun a b => b.2 ≤ a.2) l) :
    List.Pairwise (fun a b => b.2 ≤ a.2) (insertByScoreDesc x l) := by
  induction l with
  | nil => simp [insertByScoreDesc]
  | cons z zs ih =>
    unfold insertByScoreDesc
    rcases List.pairwise_cons.mp h with ⟨hz, hzs⟩
    by_cases hle : z.2 ≤ x.2
    · rw [if_pos hle]
      refine List.pairwise_cons.mpr ⟨?_, h⟩
      intro w hw
      rcases List.mem_cons.mp hw with hw | hw
      · exact hw ▸ hle
      · exact le_trans (hz w hw) hle
    · rw [if_neg hle]
      refine List.pairwise_cons.mpr ⟨?_, ih hzs⟩
      intro w hw
      rcases (mem_insertByScoreDesc x w zs).mp hw with hw | hw
      · exact hw ▸ le_of_lt (Nat.lt_of_not_le hle)
      · exact hz w hw

/-- The stable sort produces descending scores. -/
theorem pairwise_sortByScoreDesc {α : Type} (l : List (α × Nat)) :
    List.Pairwise (fun a b => b.2 ≤ a.2) (sortByScoreDesc l) := by
  induction l with
  | nil => simp [sortByScoreDesc]
  | cons z zs ih => exact pairwise_insertByScoreDesc z (sortByScoreDesc zs) ih

/-- Every scored pair arising in the selector carries the score of its
own tool. -/
theorem scored_snd_eq (allTools : List Tool) (p : Tool × Nat)
    (hp : p ∈ (allTools.map (fun t => (t, scoreTool t))).filter (fun p => 0 < p.2)) :
    p.2 = scoreTool p.1 := by
  rcases List.mem_map.mp (List.mem_of_mem_filter hp) with ⟨t, _, ht⟩
  rw [← ht]

/-- C7 counterexample: a tool named `read` with an empty description is
selected by the code (score 3 via the verb `read`), but would be excluded
under the twelve-verb set the claim states (score 0). -/
theorem c7_counterexample :
    fallbackToolSelection [⟨"read", some ""⟩] 3 = [⟨"read", some ""⟩] ∧
    fallbackToolSelectionSpec [⟨"read", some ""⟩] 3 = [] := by
  exact ⟨rfl, rfl⟩

/-- C7 amended: the fallback selector scores each tool against the fixed
thirteen-verb set (search, get, read, fetch, find, list, query, lookup,
retrieve, browse, view, show, describe) — `read` included — with 3 points
per verb occurring in the lowered name and 1 per verb occurring in the
lowered description; it keeps only positively-scored tools from the
input, returns at most `maxTools` of them in descending score order, and
returns every positively-scored tool when they number at most `maxTools`. -/
theorem c7_amended_fallback_selection :
    researchPatterns = ["search", "get", "read", "fetch", "find", "list", "query",
      "lookup", "retrieve", "browse", "view", "show", "describe"] ∧
    (∀ allTools maxTools, (fallbackToolSelection allTools maxTools).length ≤ maxTools) ∧
    (∀ allTools maxTools t, t ∈ fallbackToolSelection allTools maxTools →
      t ∈ allTools ∧ 0 < scoreTool t) ∧
    (∀ allTools maxTools, List.Pairwise (fun a b => scoreTool b ≤ scoreTool a)
      (fallbackToolSelection allTools maxTools)) ∧
    (∀ allTools maxTools, (allTools.filter (fun t => 0 < scoreTool t)).length ≤ maxTools →
      ∀ t ∈ allTools, 0 < scoreTool t → t ∈ fallbackToolSelection allTools maxTools) := by
  refine ⟨rfl, ?_, ?_, ?_, ?_⟩
  · intro allTools maxTools
    calc (fallbackToolSelection allTools maxTools).length
        = ((sortByScoreDesc _).take maxTools).length := List.length_map _ _
      _ ≤ maxTools := by
          rw [List.length_take]
          exact Nat.min_le_left _ _
  · intro allTools maxTools t ht
    rcases List.mem_map.mp ht with ⟨p, hp, hpt⟩
    have hmem : p ∈ (allTools.map (fun t => (t, scoreTool t))).filter (fun p => 0 < p.2) :=
      (mem_sortByScoreDesc p _).mp (List.mem_of_mem_take hp)
    have hpos : 0 < p.2 := by
      have := List.of_mem_filter hmem
      simpa using this
    have hsnd := scored_snd_eq allTools p hmem
    rcases List.mem_map.mp (List.mem_of_mem_filter hmem) with ⟨t0, ht0, ht0e⟩
    have hfst : p.1 = t0 := by rw [← ht0e]
    constructor
    · rw [← hpt, hfst]
      exact ht0
    · rw [← hpt, ← hsnd]
      exact hpos
  · intro allTools maxTools
    apply List.pairwise_map.mpr
    have hsorted : List.Pairwise (fun a b => b.2 ≤ a.2)
        ((sortByScoreDesc ((allTools.map (fun t => (t, scoreTool t))).filter
          (fun p => 0 < p.2))).take maxTools) :=
      (pairwise_sortByScoreDesc _).take
    refine hsorted.imp_of_mem ?_
    intro a b ha hb hle
    have hamem := (mem_sortByScoreDesc a _).mp (List.mem_of_mem_take ha)
    have hbmem := (mem_sortByScoreDesc b _).mp (List.mem_of_mem_take hb)
    have hae := scored_snd_eq allTools a hamem
    have hbe := scored_snd_eq allTools b hbmem
    rw [← hae, ← hbe]
    exact hle
  · intro allTools maxTools hlen t htmem htpos
    unfold fallbackToolSelection
    have hlen2 : ((allTools.map (fun t => (t, scoreTool t))).filter
        (fun p => 0 < p.2)).length ≤ maxTools := by
      rw [List.filter_map, List.length_map]
      have : (List.filter ((fun p : Tool × Nat => decide (0 < p.2)) ∘
          (fun t => (t, scoreTool t))) allTools) =
          allTools.filter (fun t => 0 < scoreTool t) := rfl
      rw [this]
      exact hlen
    rw [List.take_of_length_le (by rw [length_sortByScoreDesc]; exact hlen2)]
    apply List.mem_map.mpr
    refine ⟨(t, scoreTool t), ?_, rfl⟩
    apply (mem_sortByScoreDesc _ _).mpr
    apply List.mem_filter.mpr
    exact ⟨List.mem_map.mpr ⟨t, htmem, rfl⟩, by simpa using htpos⟩

/-- C7 amended witness: the completeness case applied concretely — the
lone `read`-named tool is returned. -/
theorem c7_amended_fallback_selection_witness :
    Tool.mk "read" (some "") ∈ fallbackToolSelection [⟨"read", some ""⟩] 3 :=
  c7_amended_fallback_selection.2.2.2.2 [⟨"read", some ""⟩] 3 (by decide)
    ⟨"read", some ""⟩ (by decide) (by decide)

/-!
Retriever fan-out for one sub-query:
`ResearchConductor._search_relevant_source_urls`
(gpt_researcher/skills/researcher.py, lines 728-759).

Each configured retriever is a name plus a `search` operation taking
`max_results`; an `Except.error` models a raising search.  The
`visited_urls` set is modelled as a duplicate-free list and
`random.shuffle` as an oracle permutation function applied to the
deduplicated url list.  The ghost first component records every
`(retriever name, max_results)` search invocation.
-/

/-- One search hit, reduced to the `href` field the fan-out reads
(`url.get("href")`); `Option.none` models a missing key. -/
structure SearchHit where
  href : Option String
deriving DecidableEq

/-- A configured non-MCP web retriever: class name and `search`. -/
structure WebRetriever where
  name : String
  search : Int → Except Unit (List SearchHit)

/-- Model of `_get_new_urls` (researcher.py 705-726): filter through
`visited_urls`, inserting as you go; returns the grown visited set and
the new urls in order. -/
def getNewUrls (visited : List String) (urls : List String) : List String × List String :=
  urls.foldl (fun acc url =>
    if acc.1.contains url then acc else (acc.1 ++ [url], acc.2 ++ [url]))
    (visited, [])

/-- Loop body of `_search_relevant_source_urls` (researcher.py 735-753):
skip MCP retrievers, otherwise call `search(max_results)` — recording the
invocation — and collect the truthy hrefs, treating an exception as a
logged, skipped failure. -/
def fanoutStep (maxResults : Int) (acc : List (String × Int) × List String)
    (r : WebRetriever) : List (String × Int) × List String :=
  if strContains (pyLower r.name) "mcpretriever" then acc
  else
    match r.search maxResults with
    | .ok hits =>
      (acc.1 ++ [(r.name, maxResults)],
       acc.2 ++ hits.filterMap (fun h =>
         match h.href with
         | some u => if u ≠ "" then some u else Option.none
         | Option.none => Option.none))
    | .error _ => (acc.1 ++ [(r.name, maxResults)], acc.2)

/-- Model of `_search_relevant_source_urls` (researcher.py 728-759):
returns the invocation trace, the updated visited set and the shuffled
new urls. -/
def searchRelevantSourceUrls (retrievers : List WebRetriever) (maxResults : Int)
    (visited : List String) (shuffle : List String → List String) :
    List (String × Int) × List String × List String :=
  let step := retrievers.foldl (fanoutStep maxResults) ([], [])
  let dedup := getNewUrls visited step.2
  (step.1, dedup.1, shuffle dedup.2)

/-- The invocation trace of the fan-out loop: one `search` call per
non-MCP retriever, each with the configured `max_results`. -/
theorem fanout_invocations (maxResults : Int) :
    ∀ (retrievers : List WebRetriever) (acc : List (String × Int) × List String),
      (retrievers.foldl (fanoutStep maxResults) acc).1 =
        acc.1 ++ (retrievers.filter
          (fun r => !strContains (pyLower r.name) "mcpretriever")).map
          (fun r => (r.name, maxResults)) := by
  intro retrievers
  induction retrievers with
  | nil =>
    intro acc
    simp
  | cons r rs ih =>
    intro acc
    rw [List.foldl_cons, List.filter_cons]
    by_cases hmcp : strContains (pyLower r.name) "mcpretriever"
    · rw [(by simp [hmcp] : (!strContains (pyLower r.name) "mcpretriever") = false)]
      rw [(by unfold fanoutStep; rw [if_pos hmcp] : fanoutStep maxResults acc r = acc)]
      exact ih acc
    · rw [(by simp [hmcp] : (!strContains (pyLower r.name) "mcpretriever") = true)]
      have hstep : (fanoutStep maxResults acc r).1 = acc.1 ++ [(r.name, maxResults)] := by
        unfold fanoutStep
        rw [if_neg hmcp]
        rcases r.search maxResults with e | hits
        · rfl
        · rfl
      rw [ih (fanoutStep maxResults acc r), hstep]
      simp

/-!
MCP retriever entry points: `MCPRetriever.search_async` and
`MCPRetriever.search` (gpt_researcher/retrievers/mcp/retriever.py, lines
115-297).

The three stages are oracles: `_get_all_tools` wrapping
`client_manager.get_all_tools` (the wrapper catches its own errors and
returns `[]`), `tool_selector.select_relevant_tools`, and
`mcp_researcher.conduct_research_with_tools`.  An uncaught exception is
`Except.error`; the `finally` clause swallows client-cleanup errors and
is not otherwise observable.
-/

/-- Python slice `l[:stop]` with an int bound (negative bounds count from
the end). -/
def pySliceTo {α : Type} (l : List α) (stop : Int) : List α :=
  if 0 ≤ stop then l.take stop.toNat
  else l.take ((l.length : Int) + stop).toNat

/-- Model of `_get_all_tools` (retriever.py 299-323): stage errors are
caught and yield the empty tool list. -/
def getAllTools (allToolsOracle : Except Unit (List Tool)) : List Tool :=
  match allToolsOracle with
  | .ok ts => ts
  | .error _ => []

/-- Body of the `try` of `search_async` (retriever.py 135-187): empty
tool list or empty selection short-circuit to `[]`; a raising stage
propagates out of the body (to the enclosing `except`); otherwise the
results are truncated to `max_results`. -/
def searchAsyncBody (allToolsOracle selectOracle : Except Unit (List Tool))
    (conductOracle : Except Unit (List PyVal)) (maxResults : Int) :
    Except Unit (List PyVal) :=
  if (getAllTools allToolsOracle).isEmpty then .ok []
  else
    match selectOracle with
    | .error e => .error e
    | .ok selected =>
      if selected.isEmpty then .ok []
      else
        match conductOracle with
        | .error e => .error e
        | .ok results =>
          if (results.length : Int) > maxResults then .ok (pySliceTo results maxResults)
          else .ok results

/-- Model of `MCPRetriever.search_async` (retriever.py 115-198): empty
server configuration short-circuits to `[]`; any exception from the body
is caught and `[]` returned. -/
def searchAsync (mcpConfigs : List String)
    (allToolsOracle selectOracle : Except Unit (List Tool))
    (conductOracle : Except Unit (List PyVal)) (maxResults : Int) :
    Except Unit (List PyVal) :=
  if mcpConfigs.isEmpty then .ok []
  else
    match searchAsyncBody allToolsOracle selectOracle conductOracle maxResults with
    | .ok r => .ok r
    | .error _ => .ok []

/-- Model of the synchronous `MCPRetriever.search` (retriever.py
200-297): re-checks the configuration, runs `search_async` on a private
event loop, and catches any exception, returning `[]`. -/
def searchSync (mcpConfigs : List String)
    (allToolsOracle selectOracle : Except Unit (List Tool))
    (conductOracle : Except Unit (List PyVal)) (maxResults : Int) :
    Except Unit (List PyVal) :=
  if mcpConfigs.isEmpty then .ok []
  else
    match searchAsync mcpConfigs allToolsOracle selectOracle conductOracle maxResults with
    | .ok r => .ok r
    | .error _ => .ok []

/-- C9 counterexample: with `max_results = 0`, the fan-out still invokes
the configured retriever's search (here once, with argument 0), refuting
that a zero budget suppresses the invocation. -/
theorem c9_counterexample :
    (searchRelevantSourceUrls [⟨"TavilySearch", fun _ => Except.ok []⟩] 0 [] id).1 =
      [("TavilySearch", 0)] ∧
    ([("TavilySearch", 0)] : List (String × Int)) ≠ [] := by
  exact ⟨rfl, by decide⟩

/-- Exhaustive outcomes of the `search_async` body: an escaping stage
exception, an empty-result short-circuit, or the (possibly truncated)
conducted results. -/
theorem searchAsyncBody_cases (allToolsOracle selectOracle : Except Unit (List Tool))
    (conductOracle : Except Unit (List PyVal)) (maxResults : Int) :
    searchAsyncBody allToolsOracle selectOracle conductOracle maxResults = Except.error () ∨
    searchAsyncBody allToolsOracle selectOracle conductOracle maxResults = Except.ok [] ∨
    (∃ results, conductOracle = Except.ok results ∧
      searchAsyncBody allToolsOracle selectOracle conductOracle maxResults =
        Except.ok (if (results.length : Int) > maxResults then pySliceTo results maxResults
          else results)) := by
  unfold searchAsyncBody
  by_cases ht : (getAllTools allToolsOracle).isEmpty
  · right; left
    rw [if_pos ht]
  · rw [if_neg ht]
    rcases selectOracle with e | selected
    · left
      cases e
      rfl
    · dsimp only
      by_cases hsel : selected.isEmpty
      · right; left
        rw [if_pos hsel]
      · rw [if_neg hsel]
        rcases conductOracle with e | results
        · left
          cases e
          rfl
        · dsimp only
          right; right
          refine ⟨results, rfl, ?_⟩
          by_cases hlen : (results.length : Int) > maxResults
          · rw [if_pos hlen, if_pos hlen]
          · rw [if_neg hlen, if_neg hlen]

/-- At `max_results = 0` every body outcome collapses to the error or the
empty list. -/
theorem searchAsyncBody_zero (allToolsOracle selectOracle : Except Unit (List Tool))
    (conductOracle : Except Unit (List PyVal)) :
    searchAsyncBody allToolsOracle selectOracle conductOracle 0 = Except.error () ∨
    searchAsyncBody allToolsOracle selectOracle conductOracle 0 = Except.ok [] := by
  rcases searchAsyncBody_cases allToolsOracle selectOracle conductOracle 0 with
    h | h | ⟨results, _, h⟩
  · exact Or.inl h
  · exact Or.inr h
  · right
    rw [h]
    by_cases hlen : (results.length : Int) > 0
    · rw [if_pos hlen]
      unfold pySliceTo
      rw [if_pos (le_refl 0)]
      simp
    · rw [if_neg hlen]
      have h1 : (results.length : Int) ≤ 0 := not_lt.mp hlen
      have h2 : results.length = 0 := by exact_mod_cast le_antisymm h1 (by exact_mod_cast Nat.zero_le _)
      rw [List.length_eq_zero.mp h2]

/-- C9 amended: the fan-out invokes every configured non-MCP retriever
exactly once with `max_results = cfg.max_search_results_per_query`
whatever that value is — including 0 — while MCP retrievers are skipped;
the MCP retriever invoked with `max_results = 0` still runs its pipeline
but returns the empty result list. -/
theorem c9_amended_zero_max_results :
    (∀ retrievers maxResults visited shuffle,
      (searchRelevantSourceUrls retrievers maxResults visited shuffle).1 =
        (retrievers.filter (fun r => !strContains (pyLower r.name) "mcpretriever")).map
          (fun r => (r.name, maxResults))) ∧
    (∀ mcpConfigs allToolsOracle selectOracle conductOracle,
      searchAsync mcpConfigs allToolsOracle selectOracle conductOracle 0 =
        Except.ok []) := by
  constructor
  · intro retrievers maxResults visited shuffle
    unfold searchRelevantSourceUrls
    simpa using fanout_invocations maxResults retrievers ([], [])
  · intro mcpConfigs allToolsOracle selectOracle conductOracle
    unfold searchAsync
    by_cases hc : mcpConfigs.isEmpty
    · rw [if_pos hc]
    · rw [if_neg hc]
      rcases searchAsyncBody_zero allToolsOracle selectOracle conductOracle with h | h <;>
        rw [h]

/-- C9 amended witness: one non-MCP retriever invoked once with 0. -/
theorem c9_amended_zero_max_results_witness :
    (searchRelevantSourceUrls [WebRetriever.mk "TavilySearch" (fun _ => Except.ok [])]
        0 [] id).1 =
      ([WebRetriever.mk "TavilySearch" (fun _ => Except.ok [])].filter
        (fun r => !strContains (pyLower r.name) "mcpretriever")).map
        (fun r => (r.name, (0 : Int))) :=
  c9_amended_zero_max_results.1 [WebRetriever.mk "TavilySearch" (fun _ => Except.ok [])]
    0 [] id

/-- C10 counterexample: the claim asserts at most `max_results` entries
for every input, but a negative `max_results` (a Python int) slices from
the end: with two results and `max_results = -1` the retriever returns
one entry, and 1 is not at most -1. -/
theorem c10_counterexample :
    searchAsync ["srv"] (Except.ok [⟨"t", some ""⟩]) (Except.ok [⟨"t", some ""⟩])
      (Except.ok [PyVal.none, PyVal.none]) (-1) = Except.ok [PyVal.none] ∧
    ¬ ((([PyVal.none] : List PyVal).length : Int) ≤ -1) := by
  exact ⟨rfl, by decide⟩

/-- C10 amended: `search` and `search_async` never propagate an exception
— for every configuration and every stage outcome they return a list
(empty on failure) — and the returned list has at most `max_results`
entries whenever `max_results` is non-negative (as the config value
passed by every caller is). -/
theorem c10_amended_search_safe
    (mcpConfigs : List String) (allToolsOracle selectOracle : Except Unit (List Tool))
    (conductOracle : Except Unit (List PyVal)) (maxResults : Int) :
    (∃ l, searchAsync mcpConfigs allToolsOracle selectOracle conductOracle maxResults =
      Except.ok l) ∧
    (∃ l, searchSync mcpConfigs allToolsOracle selectOracle conductOracle maxResults =
      Except.ok l) ∧
    (0 ≤ maxResults →
      ∃ l, searchAsync mcpConfigs allToolsOracle selectOracle conductOracle maxResults =
        Except.ok l ∧ (l.length : Int) ≤ maxResults) ∧
    (0 ≤ maxResults →
      ∃ l, searchSync mcpConfigs allToolsOracle selectOracle conductOracle maxResults =
        Except.ok l ∧ (l.length : Int) ≤ maxResults) := by
  have hok : ∃ l, searchAsync mcpConfigs allToolsOracle selectOracle conductOracle
      maxResults = Except.ok l := by
    unfold searchAsync
    by_cases hc : mcpConfigs.isEmpty
    · exact ⟨[], by rw [if_pos hc]⟩
    · rw [if_neg hc]
      rcases hb : searchAsyncBody allToolsOracle selectOracle conductOracle maxResults
        with e | r
      · exact ⟨[], rfl⟩
      · exact ⟨r, rfl⟩
  have hbound : 0 ≤ maxResults →
      ∃ l, searchAsync mcpConfigs allToolsOracle selectOracle conductOracle maxResults =
        Except.ok l ∧ (l.length : Int) ≤ maxResults := by
    intro hm
    unfold searchAsync
    by_cases hc : mcpConfigs.isEmpty
    · exact ⟨[], by rw [if_pos hc], by simpa using hm⟩
    · rw [if_neg hc]
      rcases searchAsyncBody_cases allToolsOracle selectOracle conductOracle maxResults
        with h | h | ⟨results, _, h⟩
      · exact ⟨[], by rw [h], by simpa using hm⟩
      · exact ⟨[], by rw [h], by simpa using hm⟩
      · by_cases hlen : (results.length : Int) > maxResults
        · rw [h, if_pos hlen]
          refine ⟨pySliceTo results maxResults, rfl, ?_⟩
          unfold pySliceTo
          rw [if_pos hm]
          have hle : (List.take maxResults.toNat results).length ≤ maxResults.toNat :=
            le_trans (List.length_take _ _).le (Nat.min_le_left _ _)
          calc ((List.take maxResults.toNat results).length : Int)
              ≤ (maxResults.toNat : Int) := by exact_mod_cast hle
            _ = maxResults := Int.toNat_of_nonneg hm
        · rw [h, if_neg hlen]
          exact ⟨results, rfl, not_lt.mp hlen⟩
  have hsync : (∃ l, searchAsync mcpConfigs allToolsOracle selectOracle conductOracle
      maxResults = Except.ok l) →
      ∀ l, searchAsync mcpConfigs allToolsOracle selectOracle conductOracle maxResults =
        Except.ok l →
      searchSync mcpConfigs allToolsOracle selectOracle conductOracle maxResults =
        Except.ok l := by
    intro _ l hl
    unfold searchSync
    by_cases hc : mcpConfigs.isEmpty
    · rw [if_pos hc]
      unfold searchAsync at hl
      rw [if_pos hc] at hl
      exact hl
    · rw [if_neg hc, hl]
  rcases hok with ⟨l0, hl0⟩
  refine ⟨⟨l0, hl0⟩, ⟨l0, hsync ⟨l0, hl0⟩ l0 hl0⟩, hbound, ?_⟩
  intro hm
  rcases hbound hm with ⟨l, hl, hb⟩
  exact ⟨l, hsync ⟨l, hl⟩ l hl, hb⟩

/-- C10 amended witness: the bound case applied concretely. -/
theorem c10_amended_search_safe_witness :
    ∃ l, searchAsync ["srv"] (Except.ok []) (Except.ok []) (Except.ok []) 5 =
      Except.ok l ∧ (l.length : Int) ≤ 5 :=
  (c10_amended_search_safe ["srv"] (Except.ok []) (Except.ok []) (Except.ok []) 5).2.2.1
    (by decide)

/-!
MCP strategy handling of the Research Conductor:
`_get_context_by_web_search` (gpt_researcher/skills/researcher.py, lines
243-342) and `_process_sub_query` (lines 426-555).

The MCP research pass `_execute_mcp_research_for_queries` (lines 370-424)
is external-effect bound (LLM tool selection and tool execution); it is
modelled as an oracle from a query to its produced context entries, and
every call of the pass is recorded in a ghost `invocations` trace holding
the query list it was given.  `_mcp_results_cache` lives on the conductor
instance and is threaded explicitly; a research task is the sequence of
`_get_context_by_web_search` calls the conductor performs (one for the
web branch, more for hybrid or complemented source-url research), all
issued with the task's original query.
-/

/-- Conductor state relevant to MCP strategy: the task-scoped results
cache and the ghost invocation trace. -/
structure McpRunState where
  cache : Option (List McpItem)
  invocations : List (List String)
deriving DecidableEq

/-- Model of `_execute_mcp_research_for_queries` (researcher.py 370-424):
record the invocation and produce the entries the oracle yields for each
query, concatenated. -/
def execMcpResearchForQueries (oracle : String → List McpItem) (queries : List String)
    (st : McpRunState) : McpRunState × List McpItem :=
  ({ st with invocations := st.invocations ++ [queries] },
   (queries.map oracle).flatten)

/-- MCP pre-pass of `_get_context_by_web_search` (researcher.py 256-304):
with MCP retrievers configured and no cache yet, `disabled` skips,
`fast` runs the pass once with the original query and caches the result,
`deep` defers to per-sub-query execution, and an unknown strategy falls
back to the fast behaviour. -/
def mcpPrePass (strategy : String) (hasMcpRetrievers : Bool)
    (oracle : String → List McpItem) (query : String) (st : McpRunState) : McpRunState :=
  if hasMcpRetrievers ∧ st.cache = Option.none then
    if strategy = "disabled" then st
    else if strategy = "fast" then
      let run := execMcpResearchForQueries oracle [query] st
      { run.1 with cache := some run.2 }
    else if strategy = "deep" then st
    else
      let run := execMcpResearchForQueries oracle [query] st
      { run.1 with cache := some run.2 }
  else st

/-- MCP part of `_process_sub_query` (researcher.py 442-495): `disabled`
yields nothing; `fast` with a populated cache copies it; `deep` runs the
pass for this sub-query; otherwise (no cache outside deep mode) the pass
runs for this sub-query as a fallback. -/
def processSubQueryMcp (strategy : String) (hasMcpRetrievers : Bool)
    (oracle : String → List McpItem) (subQuery : String) (st : McpRunState) :
    McpRunState × List McpItem :=
  if hasMcpRetrievers then
    if strategy = "disabled" then (st, [])
    else if strategy = "fast" ∧ st.cache ≠ Option.none then
      (st, st.cache.getD [])
    else if strategy = "deep" then
      execMcpResearchForQueries oracle [subQuery] st
    else
      execMcpResearchForQueries oracle [subQuery] st
  else (st, [])

/-- MCP flow of one `_get_context_by_web_search` call (researcher.py
243-342): pre-pass, then the per-sub-query fan-out; returns the final
state and each sub-query's MCP context. -/
def getContextByWebSearchMcp (strategy : String) (hasMcpRetrievers : Bool)
    (oracle : String → List McpItem) (query : String) (subQueries : List String)
    (st : McpRunState) : McpRunState × List (List McpItem) :=
  let st1 := mcpPrePass strategy hasMcpRetrievers oracle query st
  subQueries.foldl (fun acc sq =>
    let run := processSubQueryMcp strategy hasMcpRetrievers oracle sq acc.1
    (run.1, acc.2 ++ [run.2]))
    (st1, [])

/-- A whole research task: the conductor starts with an empty cache and
trace and performs one `_get_context_by_web_search` call per planned
sub-query batch, each with the task's original query. -/
def runResearchTask (strategy : String) (hasMcpRetrievers : Bool)
    (oracle : String → List McpItem) (query : String) (plans : List (List String)) :
    McpRunState × List (List McpItem) :=
  plans.foldl (fun acc plan =>
    let run := getContextByWebSearchMcp strategy hasMcpRetrievers oracle query plan acc.1
    (run.1, acc.2 ++ run.2))
    ({ cache := Option.none, invocations := [] }, [])

/-- With the fast strategy and a populated cache, a sub-query only copies
the cache and leaves the state untouched. -/
theorem processSubQueryMcp_fast_cached (oracle : String → List McpItem)
    (subQuery : String) (st : McpRunState) (c : List McpItem) (h : st.cache = some c) :
    processSubQueryMcp "fast" true oracle subQuery st = (st, c) := by
  unfold processSubQueryMcp
  rw [if_pos rfl, if_neg (by decide), if_pos ⟨rfl, by rw [h]; exact fun he => Option.noConfusion he⟩]
  rw [h]
  rfl

/-- With the fast strategy and a populated cache, the whole fan-out of one
call keeps the state and hands every sub-query the cached entries. -/
theorem getContextByWebSearchMcp_fast_cached (oracle : String → List McpItem)
    (query : String) (subQueries : List String) (st : McpRunState) (c : List McpItem)
    (h : st.cache = some c) :
    getContextByWebSearchMcp "fast" true oracle query subQueries st =
      (st, subQueries.map (fun _ => c)) := by
  unfold getContextByWebSearchMcp
  have hpre : mcpPrePass "fast" true oracle query st = st := by
    unfold mcpPrePass
    rw [if_neg (fun hc => by rw [h] at hc; exact Option.noConfusion hc.2)]
  rw [hpre]
  suffices hfold : ∀ (sqs : List String) (acc : List (List McpItem)),
      sqs.foldl (fun acc sq =>
        let run := processSubQueryMcp "fast" true oracle sq acc.1
        (run.1, acc.2 ++ [run.2])) (st, acc) =
      (st, acc ++ sqs.map (fun _ => c)) by
    simpa using hfold subQueries []
  intro sqs
  induction sqs with
  | nil =>
    intro acc
    simp
  | cons sq sqs ih =>
    intro acc
    rw [List.foldl_cons]
    have hstep := processSubQueryMcp_fast_cached oracle sq st c h
    simp only [hstep]
    rw [ih (acc ++ [c])]
    simp

/-- After the fast pre-pass on an empty cache, the pass has run exactly
once with the original query and its result is cached. -/
theorem mcpPrePass_fast_fresh (oracle : String → List McpItem) (query : String)
    (st : McpRunState) (h : st.cache = Option.none) :
    mcpPrePass "fast" true oracle query st =
      { cache := some (oracle query),
        invocations := st.invocations ++ [[query]] } := by
  unfold mcpPrePass
  rw [if_pos ⟨rfl, h⟩, if_neg (by decide), if_pos rfl]
  unfold execMcpResearchForQueries
  simp

/-- C1: for a task with `mcp_strategy = fast` and at least one MCP
retriever configured, the MCP research pass is invoked exactly once over
the whole task, with the original task query, during the pre-pass of the
first `_get_context_by_web_search` call (so before any sub-query fan-out);
its result vector is cached on the task, and every sub-query of every
call reads a copy of that cache, so all sub-queries share the same MCP
result set regardless of how many sub-queries are planned. -/
theorem c1_fast_mcp_once_per_task (oracle : String → List McpItem) (query : String)
    (firstPlan : List String) (restPlans : List (List String)) :
    (runResearchTask "fast" true oracle query (firstPlan :: restPlans)).1.invocations =
      [[query]] ∧
    (runResearchTask "fast" true oracle query (firstPlan :: restPlans)).1.cache =
      some (oracle query) ∧
    ∀ ctx ∈ (runResearchTask "fast" true oracle query (firstPlan :: restPlans)).2,
      ctx = oracle query := by
  set c : List McpItem := oracle query with hc
  have hstate : ∀ (plans : List (List String)) (st : McpRunState)
      (acc : List (List McpItem)), st.cache = some c →
      plans.foldl (fun acc plan =>
        let run := getContextByWebSearchMcp "fast" true oracle query plan acc.1
        (run.1, acc.2 ++ run.2)) (st, acc) =
      (st, acc ++ plans.flatten.map (fun _ => c)) := by
    intro plans
    induction plans with
    | nil =>
      intro st acc _
      simp
    | cons plan plans ih =>
      intro st acc hcache
      rw [List.foldl_cons]
      have hcall := getContextByWebSearchMcp_fast_cached oracle query plan st c hcache
      simp only [hcall]
      rw [ih st (acc ++ plan.map (fun _ => c)) hcache]
      simp
  have hfirst : getContextByWebSearchMcp "fast" true oracle query firstPlan
      { cache := Option.none, invocations := [] } =
      ({ cache := some c, invocations := [[query]] }, firstPlan.map (fun _ => c)) := by
    unfold getContextByWebSearchMcp
    rw [mcpPrePass_fast_fresh oracle query _ rfl]
    simp only [List.nil_append]
    have := getContextByWebSearchMcp_fast_cached oracle query firstPlan
      { cache := some c, invocations := [[query]] } c rfl
    unfold getContextByWebSearchMcp at this
    have hpre : mcpPrePass "fast" true oracle query
        { cache := some c, invocations := [[query]] } =
        { cache := some c, invocations := [[query]] } := by
      unfold mcpPrePass
      rw [if_neg (fun hcon => Option.noConfusion hcon.2)]
    rw [hpre] at this
    exact this
  have hrun : runResearchTask "fast" true oracle query (firstPlan :: restPlans) =
      ({ cache := some c, invocations := [[query]] },
       firstPlan.map (fun _ => c) ++ restPlans.flatten.map (fun _ => c)) := by
    unfold runResearchTask
    rw [List.foldl_cons]
    simp only [hfirst]
    rw [hstate restPlans { cache := some c, invocations := [[query]] }
      (([] : List (List McpItem)) ++ firstPlan.map (fun _ => c)) rfl]
    simp
  refine ⟨by rw [hrun], by rw [hrun], ?_⟩
  intro ctx hctx
  rw [hrun] at hctx
  rcases List.mem_append.mp hctx with hm | hm
  · rcases List.mem_map.mp hm with ⟨_, _, he⟩
    exact he.symm
  · rcases List.mem_map.mp hm with ⟨_, _, he⟩
    exact he.symm

end GptResearcher
